import Mathlib

/-!
Verification of the Sudoku engine in `src/main.cpp` (class `SudokuGame`).

The 9x9 grid of cell values (0 = empty) is embedded as a function
`Fin 9 → Fin 9 → Nat`; the parallel fixed-cell mask as `Fin 9 → Fin 9 → Bool`.
Mutation in the C++ code is modelled by explicit state passing: every function
that mutates the grid returns the grid it leaves behind, so that the exactness
of the backtracking undo is a theorem rather than an assumption.

The random source (`std::mt19937 rng`) is modelled as an abstract shuffle
oracle `Nat → List Nat → List Nat`: call number `k` of `std::shuffle` on a
candidate list `l` may return `sh k l`.  Theorems about the solver quantify
over every oracle, which covers every random sequence the program can draw;
where a property genuinely needs the shuffled list to be a reordering of the
input (as `std::shuffle` guarantees), the hypothesis `ShuffleOk` states just
membership preservation.

Machine integers: the game's values and indices fit far below any overflow
boundary (values 0..9, indices 0..8, counts ≤ 81), so `int` is embedded as
`Int` for player-facing inputs (which may be negative) and `Nat` internally.
-/

/-- A 9x9 grid of cell values; 0 denotes an empty cell (`EMPTY` in the source). -/
def Grid : Type := Fin 9 → Fin 9 → Nat

/-- The parallel mask of fixed (clue) cells. -/
def Mask : Type := Fin 9 → Fin 9 → Bool

instance : DecidableEq Grid := by unfold Grid; infer_instance

instance : DecidableEq Mask := by unfold Mask; infer_instance

/-- Write value `v` into cell `(r, c)` (models `grid[r][c] = v`). -/
def setCell (g : Grid) (r c : Fin 9) (v : Nat) : Grid :=
  fun r' c' => if r' = r then (if c' = c then v else g r' c') else g r' c'

/-- Write `b` into the fixed mask at `(r, c)` (models `fixed[r][c] = b`). -/
def setMask (m : Mask) (r c : Fin 9) (b : Bool) : Mask :=
  fun r' c' => if r' = r then (if c' = c then b else m r' c') else m r' c'

/-- Build a grid from a row-major list of rows (for concrete test boards). -/
def mkGrid (l : List (List Nat)) : Grid :=
  fun r c => ((l.getD r.val []).getD c.val 0)

/-- The all-empty grid (every cell `EMPTY`). -/
def emptyGrid : Grid := fun _ _ => 0

/-- The nine cells of the 3x3 box containing `(row, col)`; the box origin is
`(row / 3 * 3, col / 3 * 3)` as in the source. -/
def boxCells (row col : Fin 9) : List (Fin 9 × Fin 9) :=
  (List.finRange 3).flatMap fun i =>
    (List.finRange 3).map fun j =>
      (⟨row.val / 3 * 3 + i.val, by have := row.isLt; have := i.isLt; omega⟩,
       ⟨col.val / 3 * 3 + j.val, by have := col.isLt; have := j.isLt; omega⟩)

/-- Source `isValidInGrid(grid, row, col, num)` (main.cpp lines 140-161):
scans the row, the column and the 3x3 box, excluding the cell itself; returns
`false` iff some other scanned cell already holds `num`.  The member function
`isValidMove` (lines 48-72) contains the identical three scans over the member
`board`, guarded by a bounds check; it is defined below in terms of this
function. -/
def isValidInGrid (g : Grid) (row col : Fin 9) (num : Nat) : Bool :=
  ((List.finRange 9).all fun c => c = col || g row c != num) &&
  ((List.finRange 9).all fun r => r = row || g r col != num) &&
  ((boxCells row col).all fun p => (p.1 = row && p.2 = col) || g p.1 p.2 != num)

/-- The candidate values tested by `getCandidates` (lines 130-138): 1 through 9
in ascending order. -/
def candVals : List Nat := [1, 2, 3, 4, 5, 6, 7, 8, 9]

/-- Source `getCandidates(grid, row, col)` (lines 130-138): the values 1..9
that pass `isValidInGrid`, in ascending order. -/
def getCandidates (g : Grid) (row col : Fin 9) : List Nat :=
  candVals.filter fun num => isValidInGrid g row col num

/-- Row-major list of all 81 cell positions. -/
def allCells : List (Fin 9 × Fin 9) :=
  (List.finRange 9).flatMap fun r => (List.finRange 9).map fun c => (r, c)

/-- Scanning loop of `findBestCell` (lines 109-128): walk the cells in
row-major order keeping the best (fewest-candidates) empty cell seen so far,
returning immediately on a cell with exactly one candidate. -/
def findBestGo (g : Grid) : List (Fin 9 × Fin 9) → Option (Fin 9 × Fin 9) → Nat →
    Option (Fin 9 × Fin 9)
  | [], best, _ => best
  | p :: rest, best, minC =>
    if g p.1 p.2 = 0 then
      let cnt := (getCandidates g p.1 p.2).length
      if cnt < minC then
        if cnt = 1 then some p
        else findBestGo g rest (some p) cnt
      else findBestGo g rest best minC
    else findBestGo g rest best minC

/-- Source `findBestCell` (lines 109-128): MRV cell choice; `none` models the
C++ function returning `found == false` (no empty cell). -/
def findBestCell (g : Grid) : Option (Fin 9 × Fin 9) :=
  findBestGo g allCells none 10

/-- Candidate loop of `solveBacktrack` (lines 93-103).  `step` is the recursive
call one level down.  For each value `n` of the (shuffled) candidate list: if
`isValidInGrid` passes, assign it (`grid[row][col] = num`), recurse, and on
failure set the cell of whatever grid the recursion left behind back to `EMPTY`
before trying the next value — exactly the source's in-place undo. -/
def tryCands (step : Nat → Grid → Bool × Grid × Nat) (r c : Fin 9) :
    Nat → Grid → List Nat → Bool × Grid × Nat
  | k, g, [] => (false, g, k)
  | k, g, n :: rest =>
    if isValidInGrid g r c n then
      match step k (setCell g r c n) with
      | (true, g', k') => (true, g', k')
      | (false, g'', k') => tryCands step r c k' (setCell g'' r c 0) rest
    else tryCands step r c k g rest

/-- Source `solveBacktrack(grid)` (lines 84-106), with explicit recursion fuel
(81 suffices: each level fills an empty cell) and the shuffle-call counter `k`
threaded through.  Returns `(solved, final grid, next counter)`. -/
def solveBT (sh : Nat → List Nat → List Nat) :
    Nat → Nat → Grid → Bool × Grid × Nat
  | 0, k, g =>
    (match findBestCell g with
     | none => (true, g, k)
     | some _ => (false, g, k))
  | fuel + 1, k, g =>
    (match findBestCell g with
     | none => (true, g, k)
     | some (r, c) =>
       tryCands (solveBT sh fuel) r c (k + 1) g (sh k (getCandidates g r c)))

/-- `solveBacktrack` as called by the program: full fuel for a 9x9 grid. -/
def solveBacktrack (sh : Nat → List Nat → List Nat) (k : Nat) (g : Grid) :
    Bool × Grid × Nat :=
  solveBT sh 81 k g

/-- Candidate loop of `countSolutions` (lines 223-229): no shuffling, no
validity re-check; the in-loop cap check precedes each assignment and the
cell is set back to `EMPTY` after each recursive call. -/
def countTry (step : Grid → Nat → Nat × Grid) (r c : Fin 9) (limit : Nat) :
    Grid → Nat → List Nat → Nat × Grid
  | g, count, [] => (count, g)
  | g, count, n :: rest =>
    if limit ≤ count then (count, g)
    else
      let res := step (setCell g r c n) count
      countTry step r c limit (setCell res.2 r c 0) res.1 rest

/-- Source `countSolutions(grid, count, limit)` (lines 214-230), with explicit
fuel; returns the final count together with the grid left behind (which is
proved below to equal the input grid). -/
def countSols : Nat → Grid → Nat → Nat → Nat × Grid
  | 0, g, count, limit =>
    if limit ≤ count then (count, g)
    else
      (match findBestCell g with
       | none => (count + 1, g)
       | some _ => (count, g))
  | fuel + 1, g, count, limit =>
    if limit ≤ count then (count, g)
    else
      (match findBestCell g with
       | none => (count + 1, g)
       | some (r, c) =>
         countTry (fun g2 c2 => countSols fuel g2 c2 limit) r c limit
           g count (getCandidates g r c))

/-- The count produced by `countSolutions` on a fresh copy of the grid. -/
def countSolutions (g : Grid) (count limit : Nat) : Nat :=
  (countSols 81 g count limit).1

/-- Source `hasUniqueSolution()` (lines 207-212): run the capped counter on a
copy of the board starting from `solutionCount = 0` and compare with 1. -/
def hasUniqueSolution (b : Grid) : Bool :=
  countSolutions b 0 2 == 1

/-- Source `generateSolution()` (lines 164-167): solve from an all-empty grid. -/
def generateSolution (sh : Nat → List Nat → List Nat) (k : Nat) :
    Bool × Grid × Nat :=
  solveBacktrack sh k emptyGrid

/-- A solver/hint result (`struct Move`, lines 30-33); sentinel values as in
the source: value -1 = invalid position / none, -2 = already filled,
-3 = fixed cell. -/
structure Move where
  row : Int
  col : Int
  value : Int
deriving DecidableEq

/-- Source `isValidMove(row, col, num)` (lines 48-72): bounds guard, then the
same three scans as `isValidInGrid` over the board. -/
def isValidMove (b : Grid) (row col num : Int) : Bool :=
  if h : 0 ≤ row ∧ row < 9 ∧ 0 ≤ col ∧ col < 9 ∧ 1 ≤ num ∧ num ≤ 9 then
    isValidInGrid b ⟨row.toNat, by omega⟩ ⟨col.toNat, by omega⟩ num.toNat
  else false

/-- Source `makeMove(row, col, value)` (lines 368-398).  Every `throw` is
caught by the function's own handler, which prints and returns `false`; the
embedding returns the flag together with the (possibly updated) board. -/
def makeMove (b : Grid) (fm : Mask) (row col value : Int) : Bool × Grid :=
  if h : 0 ≤ row ∧ row < 9 ∧ 0 ≤ col ∧ col < 9 then
    let r : Fin 9 := ⟨row.toNat, by omega⟩
    let c : Fin 9 := ⟨col.toNat, by omega⟩
    if fm r c then (false, b)
    else if value < 0 ∨ 9 < value then (false, b)
    else if value = 0 then (true, setCell b r c 0)
    else if isValidMove b row col value then (true, setCell b r c value.toNat)
    else (false, b)
  else (false, b)

/-- Source `getHintForCell(row, col)` (lines 350-365): bounds check first,
then already-filled, then fixed, else the reference solution's value. -/
def getHintForCell (b : Grid) (fm : Mask) (sol : Grid) (row col : Int) : Move :=
  if h : 0 ≤ row ∧ row < 9 ∧ 0 ≤ col ∧ col < 9 then
    let r : Fin 9 := ⟨row.toNat, by omega⟩
    let c : Fin 9 := ⟨col.toNat, by omega⟩
    if b r c ≠ 0 then ⟨-1, -1, -2⟩
    else if fm r c then ⟨-1, -1, -3⟩
    else ⟨row, col, (sol r c : Int)⟩
  else ⟨-1, -1, -1⟩

/-- The all-fixed mask (`fixed.assign(SIZE, vector<bool>(SIZE, true))`). -/
def allFixed : Mask := fun _ _ => true

/-- One iteration of the removal loop of `createPuzzle` (lines 190-203):
tentatively clear the cell and its fixed flag; if the board no longer has a
unique solution, restore the backed-up value and re-mark the cell fixed. -/
def digStep (bf : Grid × Mask) (p : Fin 9 × Fin 9) : Grid × Mask :=
  let backup := bf.1 p.1 p.2
  let b2 := setCell bf.1 p.1 p.2 0
  let f2 := setMask bf.2 p.1 p.2 false
  if hasUniqueSolution b2 then (b2, f2)
  else (setCell b2 p.1 p.2 backup, setMask f2 p.1 p.2 true)

/-- The state produced by `createPuzzle`: the playing board, the fixed mask
and the reference solution member. -/
structure PuzzleOut where
  board : Grid
  fixedM : Mask
  solution : Grid

/-- Source `createPuzzle(difficulty)` (lines 170-204).  `positions` is the
shuffled list of the 81 cell positions, `offset` the draw from
`uniform_int_distribution(0, 5)`, `difficulty` the enum's base clue count
(EASY = 35, MEDIUM = 30, HARD = 25, EXPERT = 20); all three stand for the
random sequence consumed by the function.  `none` models the thrown
`runtime_error` when `generateSolution` fails.  The loop bound
`i < cellsToRemove && i < positions.size()` is `positions.take cellsToRemove`. -/
def createPuzzle (sh : Nat → List Nat → List Nat) (k : Nat)
    (positions : List (Fin 9 × Fin 9)) (offset : Nat) (difficulty : Nat) :
    Option PuzzleOut :=
  match generateSolution sh k with
  | (false, _, _) => none
  | (true, sol, _) =>
    let targetClues := difficulty + offset
    let cellsToRemove := 81 - targetClues
    let bf := (positions.take cellsToRemove).foldl digStep (sol, allFixed)
    some ⟨bf.1, bf.2, sol⟩

/-- Spec-side peer relation: `(r2, c2)` lies in the same row, same column or
same 3x3 box (box origin `(row / 3 * 3, col / 3 * 3)`) as `(r, c)`, and is not
the cell `(r, c)` itself. -/
def Peers (r c r2 c2 : Fin 9) : Prop :=
  (r2 = r ∨ c2 = c ∨
    (r2.val / 3 * 3 = r.val / 3 * 3 ∧ c2.val / 3 * 3 = c.val / 3 * 3)) ∧
  ¬(r2 = r ∧ c2 = c)

instance (r c r2 c2 : Fin 9) : Decidable (Peers r c r2 c2) := by
  unfold Peers; infer_instance

/-- Spec-side statement that no cell other than `(r, c)` itself in the same
row, column or box already holds `v`. -/
def NoPeerHolds (g : Grid) (r c : Fin 9) (v : Nat) : Prop :=
  ∀ r2 c2, Peers r c r2 c2 → g r2 c2 ≠ v

instance (g : Grid) (r c : Fin 9) (v : Nat) : Decidable (NoPeerHolds g r c v) := by
  unfold NoPeerHolds; infer_instance

/-- Spec-side legality of a (possibly partial) grid: every nonzero cell value
appears nowhere else in its row, column or box. -/
def SpecLegal (g : Grid) : Prop :=
  ∀ r c, g r c ≠ 0 → NoPeerHolds g r c (g r c)

instance (g : Grid) : Decidable (SpecLegal g) := by
  unfold SpecLegal; infer_instance

/-- Code-side form of `SpecLegal`, phrased through `isValidInGrid`. -/
def Consistent (g : Grid) : Prop :=
  ∀ r c, g r c ≠ 0 → isValidInGrid g r c (g r c) = true

instance (g : Grid) : Decidable (Consistent g) := by
  unfold Consistent; infer_instance

/-- A grid with no empty cell. -/
def CompleteG (g : Grid) : Prop := ∀ r c, g r c ≠ 0

instance (g : Grid) : Decidable (CompleteG g) := by
  unfold CompleteG; infer_instance

/-- All cell values within the data model's range 0..9. -/
def ValuesOk (g : Grid) : Prop := ∀ r c, g r c ≤ 9

instance (g : Grid) : Decidable (ValuesOk g) := by
  unfold ValuesOk; infer_instance

/-- `h` agrees with `g` on every nonzero (already filled) cell of `g`. -/
def ExtendsG (g h : Grid) : Prop := ∀ r c, g r c ≠ 0 → h r c = g r c

instance (g h : Grid) : Decidable (ExtendsG g h) := by
  unfold ExtendsG; infer_instance

/-- Row-major index of cell `(r, c)` in a flat array of 81 cells. -/
def cellIdx (r c : Fin 9) : Fin 81 :=
  ⟨r.val * 9 + c.val, by have := r.isLt; have := c.isLt; omega⟩

/-- A total assignment of values 1..9 to all 81 cells, encoded so that the
space of complete grids is finite; `fillOf h` is the grid it denotes. -/
def fillOf (h : Fin 81 → Fin 9) : Grid := fun r c => (h (cellIdx r c)).val + 1

/-- Spec-side notion of a legal completion of the partial grid `g`: a total
assignment of 1..9 that agrees with every clue of `g` and is legal. -/
def IsCompletion (g : Grid) (h : Fin 81 → Fin 9) : Prop :=
  ExtendsG g (fillOf h) ∧ SpecLegal (fillOf h)

instance (g : Grid) : DecidablePred (IsCompletion g) := fun _ => by
  unfold IsCompletion; infer_instance

/-- The set of legal completions of `g`. -/
def Completions (g : Grid) : Finset (Fin 81 → Fin 9) :=
  Finset.univ.filter (IsCompletion g)

/-- The number of complete legal completions of `g` (spec side; not capped). -/
def numCompletions (g : Grid) : Nat := (Completions g).card

/-- Number of empty cells; the fuel measure for the recursions. -/
def emptyCount (g : Grid) : Nat :=
  (Finset.univ.filter fun p : Fin 9 × Fin 9 => g p.1 p.2 = 0).card

def ShuffleOk (sh : Nat → List Nat → List Nat) : Prop :=
  ∀ k l n, n ∈ sh k l → n ∈ l

/-- The total assignment denoted by a complete grid with values 1..9. -/
def toFill (g : Grid) : Fin 81 → Fin 9 :=
  fun i => ⟨(g ⟨i.val / 9, by have := i.isLt; omega⟩ ⟨i.val % 9, by omega⟩ - 1) % 9,
    Nat.mod_lt _ (by omega)⟩

/-- Scenario-B board: 5 at (0,0) and (0,1). -/
def rowConflictBoard : Grid :=
  mkGrid [[5, 5, 0, 0, 0, 0, 0, 0, 0]]

/-- The identity candidate ordering (one admissible draw of the random source). -/
def shId : Nat → List Nat → List Nat := fun _ l => l

/-- A complete grid that violates the Sudoku rules everywhere (all cells 5). -/
def allFives : Grid := fun _ _ => 5

/-- A valid complete Sudoku grid (cyclic pattern). -/
def solvedGrid : Grid :=
  mkGrid [[1, 2, 3, 4, 5, 6, 7, 8, 9],
          [4, 5, 6, 7, 8, 9, 1, 2, 3],
          [7, 8, 9, 1, 2, 3, 4, 5, 6],
          [2, 3, 4, 5, 6, 7, 8, 9, 1],
          [5, 6, 7, 8, 9, 1, 2, 3, 4],
          [8, 9, 1, 2, 3, 4, 5, 6, 7],
          [3, 4, 5, 6, 7, 8, 9, 1, 2],
          [6, 7, 8, 9, 1, 2, 3, 4, 5],
          [9, 1, 2, 3, 4, 5, 6, 7, 8]]

/-- A partial board from which no solution is reachable: row 0 needs a 9 at
(0,8), but column 8 already holds 9. -/
def stuckBoard : Grid :=
  mkGrid [[1, 2, 3, 4, 5, 6, 7, 8, 0],
          [0, 0, 0, 0, 0, 0, 0, 0, 9]]

/-- A board one cell short of `solvedGrid` (cell (0,0) cleared). -/
def nearSolvedBoard : Grid :=
  mkGrid [[0, 2, 3, 4, 5, 6, 7, 8, 9],
          [4, 5, 6, 7, 8, 9, 1, 2, 3],
          [7, 8, 9, 1, 2, 3, 4, 5, 6],
          [2, 3, 4, 5, 6, 7, 8, 9, 1],
          [5, 6, 7, 8, 9, 1, 2, 3, 4],
          [8, 9, 1, 2, 3, 4, 5, 6, 7],
          [3, 4, 5, 6, 7, 8, 9, 1, 2],
          [6, 7, 8, 9, 1, 2, 3, 4, 5],
          [9, 1, 2, 3, 4, 5, 6, 7, 8]]

/-- Board with every row 1..9: complete, but every column repeats values. -/
def rowsOnlyGrid : Grid :=
  mkGrid [[1, 2, 3, 4, 5, 6, 7, 8, 9],
          [1, 2, 3, 4, 5, 6, 7, 8, 9],
          [1, 2, 3, 4, 5, 6, 7, 8, 9],
          [1, 2, 3, 4, 5, 6, 7, 8, 9],
          [1, 2, 3, 4, 5, 6, 7, 8, 9],
          [1, 2, 3, 4, 5, 6, 7, 8, 9],
          [1, 2, 3, 4, 5, 6, 7, 8, 9],
          [1, 2, 3, 4, 5, 6, 7, 8, 9],
          [1, 2, 3, 4, 5, 6, 7, 8, 9]]

/-- Test board for hints: (0,0) filled with 5, (0,1) and the rest empty. -/
def hintBoard : Grid :=
  mkGrid [[5, 0, 0, 0, 0, 0, 0, 0, 0]]

/-- The all-clear fixed mask. -/
def noFixed : Mask := fun _ _ => false

@[simp] theorem setCell_same (g : Grid) (r c : Fin 9) (v : Nat) :
    setCell g r c v r c = v := by
  simp [setCell]

theorem setCell_other (g : Grid) (r c : Fin 9) (v : Nat) {r' c' : Fin 9}
    (h : ¬(r' = r ∧ c' = c)) : setCell g r c v r' c' = g r' c' := by
  unfold setCell
  by_cases hr : r' = r
  · have hc : ¬ c' = c := fun hc => h ⟨hr, hc⟩
    simp [hr, hc]
  · simp [hr]

theorem setCell_setCell (g : Grid) (r c : Fin 9) (v w : Nat) :
    setCell (setCell g r c v) r c w = setCell g r c w := by
  funext r' c'
  unfold setCell
  by_cases hr : r' = r <;> by_cases hc : c' = c <;> simp [hr, hc]

theorem setCell_self (g : Grid) (r c : Fin 9) :
    setCell g r c (g r c) = g := by
  funext r' c'
  unfold setCell
  by_cases hr : r' = r <;> by_cases hc : c' = c <;> simp [hr, hc]

theorem setCell_eq_of_eq (g : Grid) (r c : Fin 9) (v : Nat) (h : g r c = v) :
    setCell g r c v = g := by
  subst h; exact setCell_self g r c

theorem mem_allCells (p : Fin 9 × Fin 9) : p ∈ allCells := by
  rcases p with ⟨r, c⟩
  simp [allCells, List.mem_flatMap]

theorem findBestGo_of_forall (g : Grid) (l : List (Fin 9 × Fin 9)) (minC : Nat)
    (h : ∀ p ∈ l, g p.1 p.2 ≠ 0) : findBestGo g l none minC = none := by
  induction l generalizing minC with
  | nil => rfl
  | cons p rest ih =>
    have hp : g p.1 p.2 ≠ 0 := h p (by simp)
    unfold findBestGo
    simp only [hp, if_false]
    exact ih minC (fun q hq => h q (by simp [hq]))

theorem findBestGo_some (g : Grid) (l : List (Fin 9 × Fin 9))
    (best : Option (Fin 9 × Fin 9)) (minC : Nat) (q : Fin 9 × Fin 9)
    (hbest : ∀ p, best = some p → g p.1 p.2 = 0)
    (h : findBestGo g l best minC = some q) : g q.1 q.2 = 0 := by
  induction l generalizing best minC with
  | nil => exact hbest q h
  | cons p rest ih =>
    unfold findBestGo at h
    by_cases hp : g p.1 p.2 = 0
    · simp only [hp, if_true] at h
      by_cases hlt : (getCandidates g p.1 p.2).length < minC
      · simp only [hlt, if_true] at h
        by_cases h1 : (getCandidates g p.1 p.2).length = 1
        · simp only [h1, if_true] at h
          cases h; exact hp
        · simp only [h1, if_false] at h
          exact ih (some p) _ (fun p' hp' => by cases hp'; exact hp) h
      · simp only [hlt, if_false] at h
        exact ih best minC hbest h
    · simp only [hp, if_false] at h
      exact ih best minC hbest h

theorem findBestGo_some_ne_none (g : Grid) (l : List (Fin 9 × Fin 9))
    (p : Fin 9 × Fin 9) (minC : Nat) : findBestGo g l (some p) minC ≠ none := by
  induction l generalizing p minC with
  | nil => simp [findBestGo]
  | cons q rest ih =>
    unfold findBestGo
    by_cases hq : g q.1 q.2 = 0
    · simp only [hq, if_true]
      by_cases hlt : (getCandidates g q.1 q.2).length < minC
      · simp only [hlt, if_true]
        by_cases h1 : (getCandidates g q.1 q.2).length = 1
        · simp [h1]
        · simp only [h1, if_false]; exact ih q _
      · simp only [hlt, if_false]; exact ih p minC
    · simp only [hq, if_false]; exact ih p minC

theorem getCandidates_length_le (g : Grid) (r c : Fin 9) :
    (getCandidates g r c).length ≤ 9 :=
  le_trans (List.length_filter_le _ _) (by simp [candVals])

theorem findBestGo_none_elt (g : Grid) (l : List (Fin 9 × Fin 9)) (minC : Nat)
    (h10 : 10 ≤ minC) (h : findBestGo g l none minC = none) :
    ∀ p ∈ l, g p.1 p.2 ≠ 0 := by
  induction l generalizing minC with
  | nil => intro p hp; cases hp
  | cons p rest ih =>
    intro q hq
    unfold findBestGo at h
    by_cases hp : g p.1 p.2 = 0
    · simp only [hp, if_true] at h
      have hlt : (getCandidates g p.1 p.2).length < minC :=
        lt_of_le_of_lt (getCandidates_length_le g p.1 p.2) (by omega)
      simp only [hlt, if_true] at h
      by_cases h1 : (getCandidates g p.1 p.2).length = 1
      · simp only [h1, if_true] at h; cases h
      · simp only [h1, if_false] at h
        exact absurd h (findBestGo_some_ne_none g rest p _)
    · simp only [hp, if_false] at h
      rcases List.mem_cons.mp hq with hq' | hq'
      · cases hq'; exact hp
      · exact ih minC h10 h q hq'

/-- The MRV scan returns `none` exactly on a grid with no empty cell. -/
theorem findBestCell_eq_none_iff (g : Grid) :
    findBestCell g = none ↔ ∀ r c, g r c ≠ 0 := by
  constructor
  · intro h r c
    exact findBestGo_none_elt g allCells 10 le_rfl h (r, c) (mem_allCells (r, c))
  · intro h
    exact findBestGo_of_forall g allCells 10 (fun p _ => h p.1 p.2)

/-- The cell chosen by `findBestCell` is empty. -/
theorem findBestCell_some_empty (g : Grid) {p : Fin 9 × Fin 9}
    (h : findBestCell g = some p) : g p.1 p.2 = 0 :=
  findBestGo_some g allCells none 10 p (fun _ h' => by cases h') h

theorem mem_boxCells (row col : Fin 9) (p : Fin 9 × Fin 9) :
    p ∈ boxCells row col ↔
      p.1.val / 3 = row.val / 3 ∧ p.2.val / 3 = col.val / 3 := by
  unfold boxCells
  simp only [List.mem_flatMap, List.mem_map, List.mem_finRange]
  constructor
  · rintro ⟨i, _, j, _, rfl⟩
    have hi := i.isLt
    have hj := j.isLt
    have hr := row.isLt
    have hc := col.isLt
    constructor <;> simp only [] <;> omega
  · rintro ⟨h1, h2⟩
    have hp1 := p.1.isLt
    have hp2 := p.2.isLt
    have hr := row.isLt
    have hc := col.isLt
    refine ⟨⟨p.1.val - row.val / 3 * 3, by omega⟩, by simp,
            ⟨p.2.val - col.val / 3 * 3, by omega⟩, by simp, ?_⟩
    have e1 : row.val / 3 * 3 + (p.1.val - row.val / 3 * 3) = p.1.val := by omega
    have e2 : col.val / 3 * 3 + (p.2.val - col.val / 3 * 3) = p.2.val := by omega
    rcases p with ⟨p1, p2⟩
    simp only [Prod.mk.injEq]
    constructor <;> apply Fin.ext <;> simp [e1, e2]

/-- The code's `isValidInGrid` scan decides exactly the spec-side predicate
`NoPeerHolds`. -/
theorem isValidInGrid_iff (g : Grid) (r c : Fin 9) (v : Nat) :
    isValidInGrid g r c v = true ↔ NoPeerHolds g r c v := by
  unfold isValidInGrid NoPeerHolds
  simp only [Bool.and_eq_true, List.all_eq_true, List.mem_finRange,
    Bool.or_eq_true, decide_eq_true_eq, bne_iff_ne, ne_eq, true_implies]
  constructor
  · rintro ⟨⟨hrow, hcol⟩, hbox⟩ r2 c2 ⟨hrel, hne⟩ hv
    rcases hrel with hr2 | hc2 | hb
    · subst hr2
      rcases hrow c2 with hc | hgv
      · exact hne ⟨rfl, hc⟩
      · exact hgv hv
    · subst hc2
      rcases hcol r2 with hr | hgv
      · exact hne ⟨hr, rfl⟩
      · exact hgv hv
    · rcases hb with ⟨hb1, hb2⟩
      have hmem : (r2, c2) ∈ boxCells r c := by
        rw [mem_boxCells]
        exact ⟨show r2.val / 3 = r.val / 3 by omega,
               show c2.val / 3 = c.val / 3 by omega⟩
      rcases hbox (r2, c2) hmem with ⟨hr, hc⟩ | hgv
      · exact hne ⟨hr, hc⟩
      · exact hgv hv
  · intro h
    refine ⟨⟨?_, ?_⟩, ?_⟩
    · intro c2
      by_cases hc : c2 = c
      · exact Or.inl hc
      · exact Or.inr fun hv => h r c2 ⟨Or.inl rfl, fun hand => hc hand.2⟩ hv
    · intro r2
      by_cases hr : r2 = r
      · exact Or.inl hr
      · exact Or.inr fun hv => h r2 c ⟨Or.inr (Or.inl rfl), fun hand => hr hand.1⟩ hv
    · intro p hp
      rw [mem_boxCells] at hp
      by_cases hpc : p.1 = r ∧ p.2 = c
      · exact Or.inl hpc
      · refine Or.inr fun hv => h p.1 p.2 ⟨Or.inr (Or.inr ?_), hpc⟩ hv
        constructor <;> omega

theorem consistent_iff_specLegal (g : Grid) : Consistent g ↔ SpecLegal g := by
  unfold Consistent SpecLegal
  constructor <;> intro h r c hrc
  · exact (isValidInGrid_iff g r c (g r c)).mp (h r c hrc)
  · exact (isValidInGrid_iff g r c (g r c)).mpr (h r c hrc)

theorem mem_candVals (n : Nat) : n ∈ candVals ↔ 1 ≤ n ∧ n ≤ 9 := by
  simp only [candVals, List.mem_cons, List.not_mem_nil, or_false]
  omega

theorem mem_getCandidates (g : Grid) (r c : Fin 9) (n : Nat) :
    n ∈ getCandidates g r c ↔
      (1 ≤ n ∧ n ≤ 9) ∧ isValidInGrid g r c n = true := by
  unfold getCandidates
  rw [List.mem_filter, mem_candVals]

theorem emptyCount_le_81 (g : Grid) : emptyCount g ≤ 81 :=
  le_trans (Finset.card_filter_le _ _) (by simp)

theorem emptyCount_eq_zero_iff (g : Grid) : emptyCount g = 0 ↔ CompleteG g := by
  unfold emptyCount CompleteG
  rw [Finset.card_eq_zero, Finset.filter_eq_empty_iff]
  constructor
  · intro h r c
    exact h (Finset.mem_univ (r, c))
  · intro h p _
    exact h p.1 p.2

theorem emptyCount_setCell_lt (g : Grid) (r c : Fin 9) (n : Nat)
    (hrc : g r c = 0) (hn : n ≠ 0) : emptyCount (setCell g r c n) < emptyCount g := by
  unfold emptyCount
  apply Finset.card_lt_card
  constructor
  · intro p hp
    rw [Finset.mem_filter] at hp ⊢
    refine ⟨Finset.mem_univ _, ?_⟩
    by_cases hpq : p.1 = r ∧ p.2 = c
    · exfalso
      have : setCell g r c n p.1 p.2 = n := by
        rw [hpq.1, hpq.2]; exact setCell_same g r c n
      rw [this] at hp
      exact hn hp.2
    · rw [setCell_other g r c n hpq] at hp
      exact hp.2
  · intro hsub
    have hmem : (r, c) ∈ Finset.univ.filter
        (fun p : Fin 9 × Fin 9 => g p.1 p.2 = 0) := by
      rw [Finset.mem_filter]
      exact ⟨Finset.mem_univ _, hrc⟩
    have := hsub hmem
    rw [Finset.mem_filter] at this
    have h2 : setCell g r c n r c = n := setCell_same g r c n
    rw [h2] at this
    exact hn this.2

theorem tryCands_false_eq (step : Nat → Grid → Bool × Grid × Nat) (r c : Fin 9)
    (hstep : ∀ k g, (step k g).1 = false → (step k g).2.1 = g) :
    ∀ l k g, g r c = 0 → (tryCands step r c k g l).1 = false →
      (tryCands step r c k g l).2.1 = g := by
  intro l
  induction l with
  | nil => intro k g _ _; rfl
  | cons n rest ih =>
    intro k g hrc hfalse
    unfold tryCands at hfalse ⊢
    by_cases hval : isValidInGrid g r c n = true
    · simp only [hval, if_true] at hfalse ⊢
      rcases hres : step k (setCell g r c n) with ⟨b, g2, k2⟩
      cases b
      · have hg2 : g2 = setCell g r c n := by
          have := hstep k (setCell g r c n)
          rw [hres] at this
          exact this rfl
        simp only [hres] at hfalse ⊢
        have hback : setCell g2 r c 0 = g := by
          rw [hg2, setCell_setCell, setCell_eq_of_eq g r c 0 hrc]
        rw [hback] at hfalse ⊢
        exact ih k2 g hrc hfalse
      · simp only [hres] at hfalse
        exact Bool.noConfusion hfalse
    · simp only [hval, if_false] at hfalse ⊢
      exact ih k g hrc hfalse

theorem tryCands_keep (step : Nat → Grid → Bool × Grid × Nat) (r c : Fin 9)
    (hstepf : ∀ k g, (step k g).1 = false → (step k g).2.1 = g)
    (hstepp : ∀ k g p q, g p q ≠ 0 → (step k g).2.1 p q = g p q) :
    ∀ l k g, g r c = 0 → ∀ p q, g p q ≠ 0 →
      (tryCands step r c k g l).2.1 p q = g p q := by
  intro l
  induction l with
  | nil => intro k g _ p q _; rfl
  | cons n rest ih =>
    intro k g hrc p q hpq
    have hne : ¬(p = r ∧ q = c) := by
      rintro ⟨rfl, rfl⟩; exact hpq hrc
    unfold tryCands
    by_cases hval : isValidInGrid g r c n = true
    · simp only [hval, if_true]
      rcases hres : step k (setCell g r c n) with ⟨b, g2, k2⟩
      cases b
      · have hg2 : g2 = setCell g r c n := by
          have := hstepf k (setCell g r c n)
          rw [hres] at this
          exact this rfl
        simp only []
        have hback : setCell g2 r c 0 = g := by
          rw [hg2, setCell_setCell, setCell_eq_of_eq g r c 0 hrc]
        rw [hback]
        exact ih k2 g hrc p q hpq
      · simp only []
        have hset : setCell g r c n p q = g p q := setCell_other g r c n hne
        have := hstepp k (setCell g r c n) p q (by rw [hset]; exact hpq)
        rw [hres] at this
        simp only [] at this
        rw [this, hset]
    · simp only [hval, if_false]
      exact ih k g hrc p q hpq

theorem tryCands_complete (step : Nat → Grid → Bool × Grid × Nat) (r c : Fin 9)
    (hstepf : ∀ k g, (step k g).1 = false → (step k g).2.1 = g)
    (hstep : ∀ k g, (step k g).1 = true → CompleteG (step k g).2.1) :
    ∀ l k g, g r c = 0 → (tryCands step r c k g l).1 = true →
      CompleteG (tryCands step r c k g l).2.1 := by
  intro l
  induction l with
  | nil => intro k g _ h; cases h
  | cons n rest ih =>
    intro k g hrc htrue
    unfold tryCands at htrue ⊢
    by_cases hval : isValidInGrid g r c n = true
    · simp only [hval, if_true] at htrue ⊢
      rcases hres : step k (setCell g r c n) with ⟨b, g2, k2⟩
      cases b
      · have hg2 : g2 = setCell g r c n := by
          have := hstepf k (setCell g r c n)
          rw [hres] at this
          exact this rfl
        simp only [hres] at htrue ⊢
        have hback : setCell g2 r c 0 = g := by
          rw [hg2, setCell_setCell, setCell_eq_of_eq g r c 0 hrc]
        rw [hback] at htrue ⊢
        exact ih k2 g hrc htrue
      · simp only [hres] at htrue ⊢
        have := hstep k (setCell g r c n)
        rw [hres] at this
        exact this rfl
    · simp only [hval, if_false] at htrue ⊢
      exact ih k g hrc htrue

theorem solveBT_false_eq (sh : Nat → List Nat → List Nat) :
    ∀ fuel k g, (solveBT sh fuel k g).1 = false → (solveBT sh fuel k g).2.1 = g := by
  intro fuel
  induction fuel with
  | zero =>
    intro k g hfalse
    unfold solveBT at hfalse ⊢
    cases hfb : findBestCell g with
    | none =>
      simp only [hfb] at hfalse
      exact Bool.noConfusion hfalse
    | some p => simp only [hfb]
  | succ fuel ih =>
    intro k g hfalse
    unfold solveBT at hfalse ⊢
    cases hfb : findBestCell g with
    | none =>
      simp only [hfb] at hfalse
      exact Bool.noConfusion hfalse
    | some p =>
      obtain ⟨r, c⟩ := p
      simp only [hfb] at hfalse ⊢
      exact tryCands_false_eq (solveBT sh fuel) r c (fun k' g' => ih k' g')
        (sh k (getCandidates g r c)) (k + 1) g
        (findBestCell_some_empty g hfb) hfalse

theorem solveBT_keep (sh : Nat → List Nat → List Nat) :
    ∀ fuel k g p q, g p q ≠ 0 → (solveBT sh fuel k g).2.1 p q = g p q := by
  intro fuel
  induction fuel with
  | zero =>
    intro k g p q _
    unfold solveBT
    cases hfb : findBestCell g with
    | none => simp only [hfb]
    | some x => simp only [hfb]
  | succ fuel ih =>
    intro k g p q hpq
    unfold solveBT
    cases hfb : findBestCell g with
    | none => simp only [hfb]
    | some x =>
      obtain ⟨r, c⟩ := x
      simp only [hfb]
      exact tryCands_keep (solveBT sh fuel) r c (fun k' g' => solveBT_false_eq sh fuel k' g')
        (fun k' g' p' q' => ih k' g' p' q') (sh k (getCandidates g r c)) (k + 1) g
        (findBestCell_some_empty g hfb) p q hpq

theorem solveBT_complete (sh : Nat → List Nat → List Nat) :
    ∀ fuel k g, (solveBT sh fuel k g).1 = true → CompleteG (solveBT sh fuel k g).2.1 := by
  intro fuel
  induction fuel with
  | zero =>
    intro k g htrue
    unfold solveBT at htrue ⊢
    cases hfb : findBestCell g with
    | none =>
      simp only [hfb]
      exact (findBestCell_eq_none_iff g).mp hfb
    | some p =>
      simp only [hfb] at htrue
      exact Bool.noConfusion htrue
  | succ fuel ih =>
    intro k g htrue
    unfold solveBT at htrue ⊢
    cases hfb : findBestCell g with
    | none =>
      simp only [hfb]
      exact (findBestCell_eq_none_iff g).mp hfb
    | some p =>
      obtain ⟨r, c⟩ := p
      simp only [hfb] at htrue ⊢
      exact tryCands_complete (solveBT sh fuel) r c
        (fun k' g' => solveBT_false_eq sh fuel k' g') (fun k' g' => ih k' g')
        (sh k (getCandidates g r c)) (k + 1) g
        (findBestCell_some_empty g hfb) htrue

/-- On a grid with no empty cell the solver returns immediately: `true`, the
grid untouched, the random source unconsumed. -/
theorem solveBT_of_complete (sh : Nat → List Nat → List Nat) (fuel k : Nat)
    (g : Grid) (h : CompleteG g) : solveBT sh fuel k g = (true, g, k) := by
  have hfb : findBestCell g = none := (findBestCell_eq_none_iff g).mpr h
  cases fuel <;> (unfold solveBT; simp only [hfb])

/-- `std::shuffle` only reorders its range: every value of the shuffled list
was in the input list.  This is the only fact about the random source any
theorem below relies on. -/

theorem peers_symm {r c r2 c2 : Fin 9} (h : Peers r c r2 c2) : Peers r2 c2 r c := by
  obtain ⟨hrel, hne⟩ := h
  refine ⟨?_, fun hand => hne ⟨hand.1.symm, hand.2.symm⟩⟩
  rcases hrel with h1 | h2 | ⟨h3, h4⟩
  · exact Or.inl h1.symm
  · exact Or.inr (Or.inl h2.symm)
  · exact Or.inr (Or.inr ⟨h3.symm, h4.symm⟩)

theorem specLegal_set (g : Grid) (r c : Fin 9) (n : Nat) (hg : SpecLegal g)
    (hrc : g r c = 0) (hv : NoPeerHolds g r c n) : SpecLegal (setCell g r c n) := by
  by_cases hn : n = 0
  · subst hn
    rw [setCell_eq_of_eq g r c 0 hrc]
    exact hg
  · intro p q hpq
    by_cases hpc : p = r ∧ q = c
    · obtain ⟨rfl, rfl⟩ := hpc
      rw [setCell_same]
      intro r2 c2 hpeers
      rw [setCell_other g p q n hpeers.2]
      exact hv r2 c2 hpeers
    · rw [setCell_other g r c n hpc] at hpq
      have hval : setCell g r c n p q = g p q := setCell_other g r c n hpc
      rw [hval]
      intro r2 c2 hpeers
      by_cases h2 : r2 = r ∧ c2 = c
      · obtain ⟨rfl, rfl⟩ := h2
        rw [setCell_same]
        intro heq
        exact hv p q (peers_symm hpeers) heq.symm
      · rw [setCell_other g r c n h2]
        exact hg p q hpq r2 c2 hpeers

theorem consistent_setCell {g : Grid} {r c : Fin 9} {n : Nat} (hg : Consistent g)
    (hrc : g r c = 0) (hval : isValidInGrid g r c n = true) :
    Consistent (setCell g r c n) := by
  rw [consistent_iff_specLegal] at hg ⊢
  exact specLegal_set g r c n hg hrc ((isValidInGrid_iff g r c n).mp hval)

theorem valuesOk_setCell {g : Grid} {r c : Fin 9} {n : Nat} (hg : ValuesOk g)
    (hn : n ≤ 9) : ValuesOk (setCell g r c n) := by
  intro p q
  by_cases hpc : p = r ∧ q = c
  · obtain ⟨rfl, rfl⟩ := hpc
    rw [setCell_same]; exact hn
  · rw [setCell_other g r c n hpc]; exact hg p q

theorem tryCands_inv (step : Nat → Grid → Bool × Grid × Nat) (r c : Fin 9)
    (hstepf : ∀ k g, (step k g).1 = false → (step k g).2.1 = g)
    (hstep : ∀ k g, Consistent g → ValuesOk g → (step k g).1 = true →
      Consistent (step k g).2.1 ∧ ValuesOk (step k g).2.1) :
    ∀ l, (∀ n ∈ l, n ≤ 9) → ∀ k g, Consistent g → ValuesOk g → g r c = 0 →
      (tryCands step r c k g l).1 = true →
      Consistent (tryCands step r c k g l).2.1 ∧
        ValuesOk (tryCands step r c k g l).2.1 := by
  intro l
  induction l with
  | nil => intro _ k g _ _ _ h; cases h
  | cons n rest ih =>
    intro hle k g hcons hvals hrc htrue
    have hn9 : n ≤ 9 := hle n (by simp)
    have hrest : ∀ m ∈ rest, m ≤ 9 := fun m hm => hle m (by simp [hm])
    unfold tryCands at htrue ⊢
    by_cases hval : isValidInGrid g r c n = true
    · simp only [hval, if_true] at htrue ⊢
      rcases hres : step k (setCell g r c n) with ⟨b, g2, k2⟩
      cases b
      · have hg2 : g2 = setCell g r c n := by
          have := hstepf k (setCell g r c n)
          rw [hres] at this
          exact this rfl
        simp only [hres] at htrue ⊢
        have hback : setCell g2 r c 0 = g := by
          rw [hg2, setCell_setCell, setCell_eq_of_eq g r c 0 hrc]
        rw [hback] at htrue ⊢
        exact ih hrest k2 g hcons hvals hrc htrue
      · simp only [hres] at htrue ⊢
        have := hstep k (setCell g r c n)
          (consistent_setCell hcons hrc hval) (valuesOk_setCell hvals hn9)
        rw [hres] at this
        exact this rfl
    · simp only [hval, if_false] at htrue ⊢
      exact ih hrest k g hcons hvals hrc htrue

theorem solveBT_inv (sh : Nat → List Nat → List Nat) (hsh : ShuffleOk sh) :
    ∀ fuel k g, Consistent g → ValuesOk g → (solveBT sh fuel k g).1 = true →
      Consistent (solveBT sh fuel k g).2.1 ∧ ValuesOk (solveBT sh fuel k g).2.1 := by
  intro fuel
  induction fuel with
  | zero =>
    intro k g hcons hvals htrue
    unfold solveBT at htrue ⊢
    cases hfb : findBestCell g with
    | none => simp only [hfb]; exact ⟨hcons, hvals⟩
    | some p =>
      simp only [hfb] at htrue
      exact Bool.noConfusion htrue
  | succ fuel ih =>
    intro k g hcons hvals htrue
    unfold solveBT at htrue ⊢
    cases hfb : findBestCell g with
    | none => simp only [hfb]; exact ⟨hcons, hvals⟩
    | some p =>
      obtain ⟨r, c⟩ := p
      simp only [hfb] at htrue ⊢
      refine tryCands_inv (solveBT sh fuel) r c
        (fun k' g' => solveBT_false_eq sh fuel k' g')
        (fun k' g' => ih k' g') (sh k (getCandidates g r c)) ?_ (k + 1) g
        hcons hvals (findBestCell_some_empty g hfb) htrue
      intro n hn
      exact ((mem_getCandidates g r c n).mp (hsh k (getCandidates g r c) n hn)).1.2

theorem countTry_grid_eq (step : Grid → Nat → Nat × Grid) (r c : Fin 9) (limit : Nat)
    (hstep : ∀ g count, (step g count).2 = g) :
    ∀ l g count, g r c = 0 → (countTry step r c limit g count l).2 = g := by
  intro l
  induction l with
  | nil => intro g count _; rfl
  | cons n rest ih =>
    intro g count hrc
    unfold countTry
    by_cases hlim : limit ≤ count
    · simp only [hlim, if_true]
    · simp only [hlim, if_false]
      have hres : (step (setCell g r c n) count).2 = setCell g r c n :=
        hstep (setCell g r c n) count
      have hback : setCell (step (setCell g r c n) count).2 r c 0 = g := by
        rw [hres, setCell_setCell, setCell_eq_of_eq g r c 0 hrc]
      rw [hback]
      exact ih g _ hrc

theorem countSols_grid_eq :
    ∀ fuel g count limit, (countSols fuel g count limit).2 = g := by
  intro fuel
  induction fuel with
  | zero =>
    intro g count limit
    unfold countSols
    by_cases hlim : limit ≤ count
    · simp only [hlim, if_true]
    · simp only [hlim, if_false]
      cases hfb : findBestCell g with
      | none => simp only [hfb]
      | some p => simp only [hfb]
  | succ fuel ih =>
    intro g count limit
    unfold countSols
    by_cases hlim : limit ≤ count
    · simp only [hlim, if_true]
    · simp only [hlim, if_false]
      cases hfb : findBestCell g with
      | none => simp only [hfb]
      | some p =>
        obtain ⟨r, c⟩ := p
        simp only [hfb]
        exact countTry_grid_eq (fun g2 c2 => countSols fuel g2 c2 limit) r c limit
          (fun g2 c2 => ih g2 c2 limit) (getCandidates g r c) g count
          (findBestCell_some_empty g hfb)

theorem countTry_le (step : Grid → Nat → Nat × Grid) (r c : Fin 9) (limit : Nat)
    (hstep : ∀ g count, count ≤ limit → (step g count).1 ≤ limit) :
    ∀ l g count, count ≤ limit → (countTry step r c limit g count l).1 ≤ limit := by
  intro l
  induction l with
  | nil => intro g count h; exact h
  | cons n rest ih =>
    intro g count h
    unfold countTry
    by_cases hlim : limit ≤ count
    · simp only [hlim, if_true]; exact h
    · simp only [hlim, if_false]
      exact ih _ _ (hstep (setCell g r c n) count h)

theorem countSols_le :
    ∀ fuel g count limit, count ≤ limit → (countSols fuel g count limit).1 ≤ limit := by
  intro fuel
  induction fuel with
  | zero =>
    intro g count limit h
    unfold countSols
    by_cases hlim : limit ≤ count
    · simp only [hlim, if_true]; exact h
    · simp only [hlim, if_false]
      cases hfb : findBestCell g with
      | none => simp only [hfb]; omega
      | some p => simp only [hfb]; exact h
  | succ fuel ih =>
    intro g count limit h
    unfold countSols
    by_cases hlim : limit ≤ count
    · simp only [hlim, if_true]; exact h
    · simp only [hlim, if_false]
      cases hfb : findBestCell g with
      | none => simp only [hfb]; omega
      | some p =>
        obtain ⟨r, c⟩ := p
        simp only [hfb]
        exact countTry_le (fun g2 c2 => countSols fuel g2 c2 limit) r c limit
          (fun g2 c2 => ih g2 c2 limit) (getCandidates g r c) g count h

theorem countSols_of_complete (fuel : Nat) (g : Grid) (h : CompleteG g)
    (count limit : Nat) (hlt : count < limit) :
    countSols fuel g count limit = (count + 1, g) := by
  have hlim : ¬ limit ≤ count := by omega
  have hfb : findBestCell g = none := (findBestCell_eq_none_iff g).mpr h
  cases fuel <;> (unfold countSols; simp only [hlim, if_false, hfb])

/-- On a complete board the capped counter reports exactly one solution. -/
theorem hasUniqueSolution_of_complete (g : Grid) (h : CompleteG g) :
    hasUniqueSolution g = true := by
  unfold hasUniqueSolution countSolutions
  rw [countSols_of_complete 81 g h 0 2 (by omega)]
  rfl

/-- Invariant of the removal loop: each `digStep` either keeps a removal that
was just checked unique, or restores the board exactly, so uniqueness of the
board is preserved along any position list. -/
theorem digStep_restore (b : Grid) (m : Mask) (p : Fin 9 × Fin 9)
    (hfail : hasUniqueSolution (setCell b p.1 p.2 0) = false) :
    (digStep (b, m) p).1 = b := by
  unfold digStep
  simp only [hfail, Bool.false_eq_true, if_false]
  rw [setCell_setCell, setCell_self]

theorem dig_invariant :
    ∀ (positions : List (Fin 9 × Fin 9)) (b : Grid) (m : Mask),
      hasUniqueSolution b = true →
      hasUniqueSolution (positions.foldl digStep (b, m)).1 = true := by
  intro positions
  induction positions with
  | nil => intro b m h; exact h
  | cons p rest ih =>
    intro b m h
    rw [List.foldl_cons]
    cases hkeep : hasUniqueSolution (setCell b p.1 p.2 0) with
    | true =>
      have hstep : digStep (b, m) p =
          (setCell b p.1 p.2 0, setMask m p.1 p.2 false) := by
        unfold digStep
        simp only [hkeep, if_true]
      rw [hstep]
      exact ih _ _ hkeep
    | false =>
      have hstep1 : (digStep (b, m) p).1 = b := digStep_restore b m p hkeep
      rcases hdig : digStep (b, m) p with ⟨b2, m2⟩
      rw [hdig] at hstep1
      simp only [] at hstep1
      subst hstep1
      exact ih _ _ h

theorem candVals_nodup : candVals.Nodup := by decide

theorem getCandidates_nodup (g : Grid) (r c : Fin 9) :
    (getCandidates g r c).Nodup :=
  candVals_nodup.filter _

theorem completion_value_mem (g : Grid) (r c : Fin 9) (h : Fin 81 → Fin 9)
    (hrc : g r c = 0) (hcomp : IsCompletion g h) :
    fillOf h r c ∈ getCandidates g r c := by
  obtain ⟨hext, hleg⟩ := hcomp
  rw [mem_getCandidates]
  have hlt := (h (cellIdx r c)).isLt
  refine ⟨⟨by simp [fillOf], by simp only [fillOf]; omega⟩, ?_⟩
  rw [isValidInGrid_iff]
  intro r2 c2 hpeers heq
  have hne : g r2 c2 ≠ 0 := by rw [heq]; simp [fillOf]
  have hagree : fillOf h r2 c2 = g r2 c2 := hext r2 c2 hne
  have hlegn := hleg r c (by simp [fillOf]) r2 c2 hpeers
  exact hlegn (by rw [hagree, heq])

theorem isCompletion_set_iff (g : Grid) (r c : Fin 9) (n : Nat) (hrc : g r c = 0)
    (hn : n ≠ 0) (h : Fin 81 → Fin 9) :
    IsCompletion (setCell g r c n) h ↔ IsCompletion g h ∧ fillOf h r c = n := by
  constructor
  · rintro ⟨hext, hleg⟩
    refine ⟨⟨?_, hleg⟩, ?_⟩
    · intro p q hpq
      have hne2 : ¬(p = r ∧ q = c) := by
        rintro ⟨rfl, rfl⟩; exact hpq hrc
      have := hext p q (by rw [setCell_other g r c n hne2]; exact hpq)
      rwa [setCell_other g r c n hne2] at this
    · have := hext r c (by rw [setCell_same]; exact hn)
      rwa [setCell_same] at this
  · rintro ⟨⟨hext, hleg⟩, hval⟩
    refine ⟨?_, hleg⟩
    intro p q hpq
    by_cases hpc : p = r ∧ q = c
    · obtain ⟨rfl, rfl⟩ := hpc
      rw [setCell_same]
      exact hval
    · rw [setCell_other g r c n hpc] at hpq ⊢
      exact hext p q hpq

theorem completions_set (g : Grid) (r c : Fin 9) (n : Nat) (hrc : g r c = 0)
    (hn : n ≠ 0) :
    Completions (setCell g r c n) =
      (Completions g).filter fun h => fillOf h r c = n := by
  ext h
  simp only [Completions, Finset.filter_filter, Finset.mem_filter, Finset.mem_univ,
    true_and]
  exact isCompletion_set_iff g r c n hrc hn h

set_option maxRecDepth 2000 in
theorem mem_completions {g : Grid} {h : Fin 81 → Fin 9} :
    h ∈ Completions g ↔ IsCompletion g h := by
  unfold Completions
  rw [Finset.mem_filter]
  exact ⟨fun hx => hx.2, fun hx => ⟨Finset.mem_univ _, hx⟩⟩

set_option maxRecDepth 2000 in
/-- The legal completions of a grid with empty cell `(r, c)` are partitioned by
their value at `(r, c)`, which must be one of the code's candidates. -/
theorem completions_partition (g : Grid) (r c : Fin 9) (hrc : g r c = 0) :
    numCompletions g =
      ((getCandidates g r c).map fun n => numCompletions (setCell g r c n)).sum := by
  have hmap : ∀ x ∈ Completions g, fillOf x r c ∈ (getCandidates g r c).toFinset := by
    intro x hx
    rw [List.mem_toFinset]
    rw [mem_completions] at hx
    exact completion_value_mem g r c x hrc hx
  have hcard := Finset.card_eq_sum_card_fiberwise hmap
  have hfib : ∀ n ∈ (getCandidates g r c).toFinset,
      ((Completions g).filter fun a => fillOf a r c = n).card =
        (Completions (setCell g r c n)).card := by
    intro n hn
    rw [List.mem_toFinset, mem_getCandidates] at hn
    have hn0 : n ≠ 0 := by omega
    rw [completions_set g r c n hrc hn0]
  unfold numCompletions
  rw [hcard, Finset.sum_congr rfl hfib,
    List.sum_toFinset _ (getCandidates_nodup g r c)]

theorem cellIdx_div (r c : Fin 9) :
    (⟨(cellIdx r c).val / 9, by have := (cellIdx r c).isLt; omega⟩ : Fin 9) = r := by
  have hr := r.isLt
  have hc := c.isLt
  apply Fin.ext
  simp only [cellIdx]
  omega

theorem cellIdx_mod (r c : Fin 9) :
    (⟨(cellIdx r c).val % 9, by omega⟩ : Fin 9) = c := by
  have hr := r.isLt
  have hc := c.isLt
  apply Fin.ext
  simp only [cellIdx]
  omega

theorem cellIdx_surj (i : Fin 81) :
    cellIdx ⟨i.val / 9, by have := i.isLt; omega⟩ ⟨i.val % 9, by omega⟩ = i := by
  apply Fin.ext
  simp only [cellIdx]
  have := i.isLt
  omega

theorem fillOf_toFill (g : Grid) (hc : CompleteG g) (hv : ValuesOk g) :
    fillOf (toFill g) = g := by
  funext r c
  have h1 := hc r c
  have h2 := hv r c
  simp only [fillOf, toFill]
  rw [cellIdx_div r c, cellIdx_mod r c]
  omega

theorem numCompletions_of_complete (g : Grid) (hcomp : CompleteG g)
    (hcons : Consistent g) (hv : ValuesOk g) : numCompletions g = 1 := by
  have hsingle : Completions g = {toFill g} := by
    ext h
    simp only [Completions, Finset.mem_filter, Finset.mem_univ, true_and,
      Finset.mem_singleton]
    constructor
    · rintro ⟨hext, _⟩
      funext i
      have hi := i.isLt
      have hval := hext ⟨i.val / 9, by omega⟩ ⟨i.val % 9, by omega⟩
        (hcomp ⟨i.val / 9, by omega⟩ ⟨i.val % 9, by omega⟩)
      have hlt := (h i).isLt
      have h9 := hv (⟨i.val / 9, by omega⟩ : Fin 9) (⟨i.val % 9, by omega⟩ : Fin 9)
      have hidx := cellIdx_surj i
      apply Fin.ext
      simp only [toFill]
      simp only [fillOf, hidx] at hval
      omega
    · rintro rfl
      constructor
      · intro r c _
        rw [fillOf_toFill g hcomp hv]
      · rw [fillOf_toFill g hcomp hv]
        exact (consistent_iff_specLegal g).mp hcons
  rw [numCompletions, hsingle, Finset.card_singleton]

theorem countTry_correct (step : Grid → Nat → Nat × Grid) (r c : Fin 9)
    (limit : Nat) (g : Grid) (hrc : g r c = 0) :
    ∀ l, (∀ n ∈ l, ∀ count, count ≤ limit →
        (step (setCell g r c n) count).1 =
          min limit (count + numCompletions (setCell g r c n)) ∧
        (step (setCell g r c n) count).2 = setCell g r c n) →
      ∀ count, count ≤ limit →
        (countTry step r c limit g count l).1 =
          min limit (count + (l.map fun n => numCompletions (setCell g r c n)).sum) := by
  intro l
  induction l with
  | nil =>
    intro _ count hcount
    simp only [countTry, List.map_nil, List.sum_nil, Nat.add_zero]
    omega
  | cons n rest ih =>
    intro hstep count hcount
    unfold countTry
    simp only [List.map_cons, List.sum_cons]
    by_cases hlim : limit ≤ count
    · simp only [hlim, if_true]
      omega
    · simp only [hlim, if_false]
      have h1 := hstep n (by simp) count hcount
      rw [h1.2, setCell_setCell, setCell_eq_of_eq g r c 0 hrc, h1.1]
      have hrest : ∀ m ∈ rest, ∀ count2, count2 ≤ limit →
          (step (setCell g r c m) count2).1 =
            min limit (count2 + numCompletions (setCell g r c m)) ∧
          (step (setCell g r c m) count2).2 = setCell g r c m :=
        fun m hm => hstep m (List.mem_cons_of_mem _ hm)
      rw [ih hrest _ (by omega)]
      omega

theorem countSols_correct :
    ∀ fuel g, Consistent g → ValuesOk g → emptyCount g ≤ fuel →
      ∀ count limit, count ≤ limit →
        (countSols fuel g count limit).1 = min limit (count + numCompletions g) := by
  intro fuel
  induction fuel with
  | zero =>
    intro g hcons hvals hfuel count limit hcount
    have hcomp : CompleteG g := (emptyCount_eq_zero_iff g).mp (by omega)
    have h1 : numCompletions g = 1 := numCompletions_of_complete g hcomp hcons hvals
    by_cases hlim : limit ≤ count
    · unfold countSols
      simp only [hlim, if_true]
      omega
    · rw [countSols_of_complete 0 g hcomp count limit (by omega)]
      simp only []
      omega
  | succ fuel ih =>
    intro g hcons hvals hfuel count limit hcount
    unfold countSols
    by_cases hlim : limit ≤ count
    · simp only [hlim, if_true]
      omega
    · simp only [hlim, if_false]
      cases hfb : findBestCell g with
      | none =>
        have hcomp := (findBestCell_eq_none_iff g).mp hfb
        have h1 : numCompletions g = 1 := numCompletions_of_complete g hcomp hcons hvals
        simp only []
        omega
      | some p =>
        obtain ⟨r, c⟩ := p
        have hrc := findBestCell_some_empty g hfb
        simp only []
        have hstep : ∀ n ∈ getCandidates g r c, ∀ count2, count2 ≤ limit →
            (countSols fuel (setCell g r c n) count2 limit).1 =
              min limit (count2 + numCompletions (setCell g r c n)) ∧
            (countSols fuel (setCell g r c n) count2 limit).2 = setCell g r c n := by
          intro n hn count2 hc2
          rw [mem_getCandidates] at hn
          have hval := hn.2
          have hn9 : n ≤ 9 := hn.1.2
          have hn1 : n ≠ 0 := by omega
          refine ⟨?_, countSols_grid_eq fuel _ count2 limit⟩
          refine ih (setCell g r c n) (consistent_setCell hcons hrc hval)
            (valuesOk_setCell hvals hn9) ?_ count2 limit hc2
          have := emptyCount_setCell_lt g r c n hrc hn1
          omega
        rw [completions_partition g r c hrc]
        exact countTry_correct (fun g2 c2 => countSols fuel g2 c2 limit) r c limit g
          hrc (getCandidates g r c) hstep count hcount

/-- Top-level correctness of the capped counter for boards within the data
model (values 0..9, clues mutually consistent): the count from 0 is exactly
the number of legal completions, capped at `limit`. -/
theorem countSolutions_correct (g : Grid) (hcons : Consistent g)
    (hvals : ValuesOk g) (count limit : Nat) (hcount : count ≤ limit) :
    countSolutions g count limit = min limit (count + numCompletions g) :=
  countSols_correct 81 g hcons hvals (emptyCount_le_81 g) count limit hcount

theorem hasUniqueSolution_iff (g : Grid) (hcons : Consistent g) (hvals : ValuesOk g) :
    hasUniqueSolution g = true ↔ numCompletions g = 1 := by
  unfold hasUniqueSolution
  rw [countSolutions_correct g hcons hvals 0 2 (by omega), beq_iff_eq]
  omega

theorem isValidMove_false_of_oob (b : Grid) (row col num : Int)
    (h : row < 0 ∨ 9 ≤ row ∨ col < 0 ∨ 9 ≤ col ∨ num < 1 ∨ 9 < num) :
    isValidMove b row col num = false := by
  unfold isValidMove
  rw [dif_neg]
  omega

theorem isValidMove_true_iff (b : Grid) (row col num : Int)
    (hr : 0 ≤ row ∧ row < 9) (hc : 0 ≤ col ∧ col < 9) (hn : 1 ≤ num ∧ num ≤ 9) :
    isValidMove b row col num = true ↔
      NoPeerHolds b ⟨row.toNat, by omega⟩ ⟨col.toNat, by omega⟩ num.toNat := by
  unfold isValidMove
  rw [dif_pos ⟨hr.1, hr.2, hc.1, hc.2, hn.1, hn.2⟩]
  exact isValidInGrid_iff b _ _ _

/-- C1: for every board returned by a successful run of `createPuzzle` — any
difficulty, any shuffle oracle, any position order, any offset draw — the
uniqueness check holds on the result: `countSolutions(board, 2) == 1`, i.e.
`hasUniqueSolution(board)` is true.  A failed generation (`none`) makes no
claim. -/
theorem claim_C1_createPuzzle_unique (sh : Nat → List Nat → List Nat) (k : Nat)
    (positions : List (Fin 9 × Fin 9)) (offset difficulty : Nat) :
    match createPuzzle sh k positions offset difficulty with
    | none => True
    | some out => hasUniqueSolution out.board = true := by
  unfold createPuzzle
  rcases hres : generateSolution sh k with ⟨b, sol, k2⟩
  cases b
  · exact trivial
  · simp only []
    have h2 : solveBT sh 81 k emptyGrid = (true, sol, k2) := hres
    have h1 := solveBT_complete sh 81 k emptyGrid
    rw [h2] at h1
    have hcomp : CompleteG sol := h1 rfl
    exact dig_invariant _ sol allFixed (hasUniqueSolution_of_complete sol hcomp)

/-- C3: `isValidMove` returns false on any out-of-range row, column or value
(never faulting), and on in-range inputs returns true exactly when no cell
other than `(row, col)` itself in the same row, column or 3x3 box (box origin
`(row/3*3, col/3*3)`) already holds the value. -/
theorem claim_C3_isValidMove (b : Grid) (row col num : Int) :
    ((row < 0 ∨ 9 ≤ row ∨ col < 0 ∨ 9 ≤ col ∨ num < 1 ∨ 9 < num) →
      isValidMove b row col num = false) ∧
    (∀ (hr : 0 ≤ row ∧ row < 9) (hc : 0 ≤ col ∧ col < 9)
        (hn : 1 ≤ num ∧ num ≤ 9),
      (isValidMove b row col num = true ↔
        NoPeerHolds b ⟨row.toNat, by omega⟩ ⟨col.toNat, by omega⟩ num.toNat)) :=
  ⟨fun h => isValidMove_false_of_oob b row col num h,
   fun hr hc hn => isValidMove_true_iff b row col num hr hc hn⟩

theorem claim_C3_witness :
    isValidMove rowConflictBoard 0 2 5 = false ∧
    isValidMove rowConflictBoard 10 2 5 = false := by
  constructor
  · have h := (claim_C3_isValidMove rowConflictBoard 0 2 5).2
      (by omega) (by omega) (by omega)
    cases hval : isValidMove rowConflictBoard 0 2 5 with
    | false => rfl
    | true =>
      exfalso
      have hnp := h.mp hval
      have : ¬ NoPeerHolds rowConflictBoard ⟨(0 : Int).toNat, by omega⟩
          ⟨(2 : Int).toNat, by omega⟩ (5 : Int).toNat := by decide
      exact this hnp
  · exact (claim_C3_isValidMove rowConflictBoard 10 2 5).1 (by omega)

theorem shId_ok : ShuffleOk shId := fun _ _ _ h => h

/-- C4 counterexample: on the complete all-fives grid `solveBacktrack` returns
true with the grid unchanged, yet the grid is not a legal assignment — so
"returns true implies the grid is a complete legal assignment" fails as
stated (it needs the initial clues to be mutually consistent). -/
theorem claim_C4_counterexample :
    (solveBacktrack shId 0 allFives).1 = true ∧
    (solveBacktrack shId 0 allFives).2.1 = allFives ∧
    ¬ SpecLegal allFives := by
  have hcomp : CompleteG allFives := fun _ _ => by simp [allFives]
  have h := solveBT_of_complete shId 81 0 allFives hcomp
  refine ⟨by rw [show solveBacktrack shId 0 allFives = (true, allFives, 0) from h],
          by rw [show solveBacktrack shId 0 allFives = (true, allFives, 0) from h],
          ?_⟩
  intro hleg
  have h5 : allFives 0 0 ≠ 0 := by simp [allFives]
  have := hleg 0 0 h5 0 1 ⟨Or.inl rfl, by simp⟩
  simp [allFives] at this

/-- C4 amended: if `solveBacktrack` returns false the grid is returned exactly
as given (the undo is exact); if it returns true and the initial grid's clues
were mutually consistent with values in 0..9 (and the candidate order is a
reordering, as `std::shuffle` guarantees), the result is a complete legal
assignment extending the initial partial state. -/
theorem claim_C4_amended (sh : Nat → List Nat → List Nat) (k : Nat) (g : Grid) :
    ((solveBacktrack sh k g).1 = false → (solveBacktrack sh k g).2.1 = g) ∧
    (ShuffleOk sh → Consistent g → ValuesOk g →
      (solveBacktrack sh k g).1 = true →
      CompleteG (solveBacktrack sh k g).2.1 ∧
      ExtendsG g (solveBacktrack sh k g).2.1 ∧
      SpecLegal (solveBacktrack sh k g).2.1) := by
  constructor
  · exact solveBT_false_eq sh 81 k g
  · intro hsh hcons hvals htrue
    refine ⟨solveBT_complete sh 81 k g htrue,
            fun r c h => solveBT_keep sh 81 k g r c h, ?_⟩
    have := solveBT_inv sh hsh 81 k g hcons hvals htrue
    exact (consistent_iff_specLegal _).mp this.1

theorem claim_C4_witness :
    CompleteG (solveBacktrack shId 0 solvedGrid).2.1 ∧
    (solveBacktrack shId 0 stuckBoard).2.1 = stuckBoard := by
  constructor
  · exact ((claim_C4_amended shId 0 solvedGrid).2 shId_ok (by decide) (by decide)
      (by decide)).1
  · exact (claim_C4_amended shId 0 stuckBoard).1 (by decide)

/-- C8: on a grid with no empty cell `solveBacktrack` returns true and leaves
every cell unchanged (and consumes no randomness). -/
theorem claim_C8_solve_idempotent (sh : Nat → List Nat → List Nat) (k : Nat)
    (g : Grid) (h : CompleteG g) : solveBacktrack sh k g = (true, g, k) :=
  solveBT_of_complete sh 81 k g h

theorem claim_C8_witness :
    solveBacktrack shId 0 solvedGrid = (true, solvedGrid, 0) :=
  claim_C8_solve_idempotent shId 0 solvedGrid (by decide)

/-- C10: the solver writes only to cells that were empty at entry — every
nonzero cell holds exactly its original value in the returned grid, whether
the call succeeds or fails, for every random sequence. -/
theorem claim_C10_solver_frame (sh : Nat → List Nat → List Nat) (k : Nat)
    (g : Grid) (r c : Fin 9) (h : g r c ≠ 0) :
    (solveBacktrack sh k g).2.1 r c = g r c :=
  solveBT_keep sh 81 k g r c h

theorem claim_C10_witness :
    (solveBacktrack shId 0 nearSolvedBoard).2.1 0 1 = nearSolvedBoard 0 1 :=
  claim_C10_solver_frame shId 0 nearSolvedBoard 0 1 (by decide)

set_option maxRecDepth 2000 in
/-- C5 counterexample: on a complete but rule-violating grid `countSolutions`
reports 1 although the number of legal completions is 0 — so the count equals
min(limit, number of completions) only for boards whose clues are mutually
consistent, not for every grid as the claim states. -/
theorem claim_C5_counterexample :
    countSolutions rowsOnlyGrid 0 2 = 1 ∧ numCompletions rowsOnlyGrid = 0 ∧
    countSolutions rowsOnlyGrid 0 2 ≠ min 2 (numCompletions rowsOnlyGrid) := by
  have hcomp : CompleteG rowsOnlyGrid := by decide
  have h1 : countSolutions rowsOnlyGrid 0 2 = 1 := by
    unfold countSolutions
    rw [countSols_of_complete 81 rowsOnlyGrid hcomp 0 2 (by omega)]
  have h0 : numCompletions rowsOnlyGrid = 0 := by
    unfold numCompletions
    rw [Finset.card_eq_zero, Finset.eq_empty_iff_forall_not_mem]
    intro f hf
    rw [mem_completions] at hf
    obtain ⟨hext, hleg⟩ := hf
    have e1 : fillOf f 0 0 = rowsOnlyGrid 0 0 := hext 0 0 (by decide)
    have e2 : fillOf f 1 0 = rowsOnlyGrid 1 0 := hext 1 0 (by decide)
    have hne : fillOf f 0 0 ≠ 0 := by simp [fillOf]
    have hpeer : Peers 0 0 1 0 := ⟨Or.inr (Or.inl rfl), by decide⟩
    have hcontra := hleg 0 0 hne 1 0 hpeer
    rw [e1, e2] at hcontra
    exact hcontra (by decide)
  refine ⟨h1, h0, ?_⟩
  rw [h1, h0]
  decide

/-- C5 amended: the count starting from 0 never exceeds the limit;
`hasUniqueSolution` is exactly "capped count equals 1"; once the count has
reached the limit the search returns immediately with nothing tried; and for
every board within the data model (values 0..9, clues mutually consistent) the
count from 0 with limit 2 is exactly min(2, number of legal completions). -/
theorem claim_C5_amended (g : Grid) (limit : Nat) :
    countSolutions g 0 limit ≤ limit ∧
    (hasUniqueSolution g = true ↔ countSolutions g 0 2 = 1) ∧
    (∀ fuel count, limit ≤ count → countSols fuel g count limit = (count, g)) ∧
    (Consistent g → ValuesOk g →
      countSolutions g 0 2 = min 2 (numCompletions g)) := by
  refine ⟨countSols_le 81 g 0 limit (Nat.zero_le limit), ?_, ?_, ?_⟩
  · unfold hasUniqueSolution
    exact beq_iff_eq
  · intro fuel count hle
    cases fuel <;> (unfold countSols; rw [if_pos hle])
  · intro hcons hvals
    have := countSolutions_correct g hcons hvals 0 2 (by omega)
    rwa [Nat.zero_add] at this

theorem claim_C5_witness :
    countSolutions solvedGrid 0 2 ≤ 2 ∧
    countSolutions solvedGrid 0 2 = min 2 (numCompletions solvedGrid) ∧
    countSols 81 solvedGrid 2 2 = (2, solvedGrid) := by
  have h := claim_C5_amended solvedGrid 2
  exact ⟨h.1, h.2.2.2 (by decide) (by decide), h.2.2.1 81 2 le_rfl⟩

/-- C2 counterexample: on an in-range cell that is both a clue (fixed mask
true) and nonzero, `getHintForCell` returns the AlreadyFilled result (-2), not
the FixedCellViolation result (-3) the claim promises for clue cells: the
already-filled check runs before the fixed check. -/
theorem claim_C2_counterexample :
    allFixed 0 0 = true ∧ hintBoard 0 0 ≠ 0 ∧
    getHintForCell hintBoard allFixed solvedGrid 0 0 = ⟨-1, -1, -2⟩ ∧
    (⟨-1, -1, -2⟩ : Move) ≠ ⟨-1, -1, -3⟩ := by
  refine ⟨rfl, by decide, by decide, by decide⟩

/-- C2 amended: `getHintForCell` checks, in order: out-of-range position
(InvalidPosition, value -1), nonzero cell (AlreadyFilled, -2), then fixed flag
on an empty cell (FixedCellViolation, -3); otherwise it returns the reference
solution's value for the cell. -/
theorem claim_C2_amended (b : Grid) (fm : Mask) (sol : Grid) (row col : Int) :
    ((row < 0 ∨ 9 ≤ row ∨ col < 0 ∨ 9 ≤ col) →
      getHintForCell b fm sol row col = ⟨-1, -1, -1⟩) ∧
    (∀ (h : 0 ≤ row ∧ row < 9 ∧ 0 ≤ col ∧ col < 9),
      (b ⟨row.toNat, by omega⟩ ⟨col.toNat, by omega⟩ ≠ 0 →
        getHintForCell b fm sol row col = ⟨-1, -1, -2⟩) ∧
      (b ⟨row.toNat, by omega⟩ ⟨col.toNat, by omega⟩ = 0 →
        fm ⟨row.toNat, by omega⟩ ⟨col.toNat, by omega⟩ = true →
        getHintForCell b fm sol row col = ⟨-1, -1, -3⟩) ∧
      (b ⟨row.toNat, by omega⟩ ⟨col.toNat, by omega⟩ = 0 →
        fm ⟨row.toNat, by omega⟩ ⟨col.toNat, by omega⟩ = false →
        getHintForCell b fm sol row col =
          ⟨row, col, (sol ⟨row.toNat, by omega⟩ ⟨col.toNat, by omega⟩ : Int)⟩)) := by
  constructor
  · intro hbad
    unfold getHintForCell
    rw [dif_neg (by omega : ¬(0 ≤ row ∧ row < 9 ∧ 0 ≤ col ∧ col < 9))]
  · intro h
    unfold getHintForCell
    rw [dif_pos h]
    refine ⟨?_, ?_, ?_⟩
    · intro hb
      rw [if_pos hb]
    · intro hb hf
      rw [if_neg (by simp [hb]), if_pos hf]
    · intro hb hf
      rw [if_neg (by simp [hb]), if_neg (by simp [hf])]

theorem claim_C2_witness :
    getHintForCell hintBoard allFixed solvedGrid 9 9 = ⟨-1, -1, -1⟩ ∧
    getHintForCell hintBoard allFixed solvedGrid 0 0 = ⟨-1, -1, -2⟩ ∧
    getHintForCell hintBoard allFixed solvedGrid 0 1 = ⟨-1, -1, -3⟩ ∧
    getHintForCell hintBoard noFixed solvedGrid 0 1 = ⟨0, 1, 2⟩ := by
  refine ⟨(claim_C2_amended hintBoard allFixed solvedGrid 9 9).1 (by omega),
          ((claim_C2_amended hintBoard allFixed solvedGrid 0 0).2 (by omega)).1
            (by decide),
          (((claim_C2_amended hintBoard allFixed solvedGrid 0 1).2 (by omega)).2).1
            (by decide) (by decide), ?_⟩
  have h := (((claim_C2_amended hintBoard noFixed solvedGrid 0 1).2 (by omega)).2).2
    (by decide) (by decide)
  rw [h]
  decide

/-- C6: a player move fails — position out of range, clue cell, value outside
0..9, or a row/column/box conflict — exactly when `makeMove` returns false,
and a failing `makeMove` leaves the board completely unchanged (the thrown
validation errors are caught inside the function; the session never ends). -/
theorem claim_C6_makeMove (b : Grid) (fm : Mask) (row col value : Int) :
    ((makeMove b fm row col value).1 = false →
      (makeMove b fm row col value).2 = b) ∧
    ((row < 0 ∨ 9 ≤ row ∨ col < 0 ∨ 9 ≤ col) →
      (makeMove b fm row col value).1 = false) ∧
    (∀ (h : 0 ≤ row ∧ row < 9 ∧ 0 ≤ col ∧ col < 9),
      ((makeMove b fm row col value).1 = false ↔
        fm ⟨row.toNat, by omega⟩ ⟨col.toNat, by omega⟩ = true ∨
        value < 0 ∨ 9 < value ∨
        (1 ≤ value ∧ ¬ NoPeerHolds b ⟨row.toNat, by omega⟩
          ⟨col.toNat, by omega⟩ value.toNat))) := by
  refine ⟨?_, ?_, ?_⟩
  · intro hfalse
    unfold makeMove at hfalse ⊢
    by_cases hin : 0 ≤ row ∧ row < 9 ∧ 0 ≤ col ∧ col < 9
    · rw [dif_pos hin] at hfalse ⊢
      by_cases hf : fm ⟨row.toNat, by omega⟩ ⟨col.toNat, by omega⟩ = true
      · rw [if_pos hf]
      · rw [if_neg hf] at hfalse ⊢
        by_cases hv : value < 0 ∨ 9 < value
        · rw [if_pos hv]
        · rw [if_neg hv] at hfalse ⊢
          by_cases h0 : value = 0
          · rw [if_pos h0] at hfalse
            exact Bool.noConfusion hfalse
          · rw [if_neg h0] at hfalse ⊢
            by_cases hvm : isValidMove b row col value = true
            · rw [if_pos hvm] at hfalse
              exact Bool.noConfusion hfalse
            · rw [if_neg hvm]
    · rw [dif_neg hin]
  · intro hbad
    unfold makeMove
    rw [dif_neg (by omega : ¬(0 ≤ row ∧ row < 9 ∧ 0 ≤ col ∧ col < 9))]
  · intro h
    unfold makeMove
    rw [dif_pos h]
    by_cases hf : fm ⟨row.toNat, by omega⟩ ⟨col.toNat, by omega⟩ = true
    · rw [if_pos hf]
      exact ⟨fun _ => Or.inl hf, fun _ => rfl⟩
    · rw [if_neg hf]
      by_cases hv : value < 0 ∨ 9 < value
      · rw [if_pos hv]
        refine ⟨fun _ => ?_, fun _ => rfl⟩
        rcases hv with hv | hv
        · exact Or.inr (Or.inl hv)
        · exact Or.inr (Or.inr (Or.inl hv))
      · rw [if_neg hv]
        by_cases h0 : value = 0
        · rw [if_pos h0]
          constructor
          · intro hfalse
            exact Bool.noConfusion hfalse
          · rintro (hbad | hbad | hbad | ⟨h1, _⟩)
            · exact absurd hbad hf
            · exact absurd hbad (by omega)
            · exact absurd hbad (by omega)
            · exact absurd h1 (by omega)
        · rw [if_neg h0]
          by_cases hvm : isValidMove b row col value = true
          · rw [if_pos hvm]
            constructor
            · intro hfalse
              exact Bool.noConfusion hfalse
            · rintro (hbad | hbad | hbad | ⟨h1, hnp⟩)
              · exact absurd hbad hf
              · exact absurd hbad (by omega)
              · exact absurd hbad (by omega)
              · exact absurd ((isValidMove_true_iff b row col value
                  (by omega) (by omega) (by omega)).mp hvm) hnp
          · rw [if_neg hvm]
            refine ⟨fun _ => ?_, fun _ => rfl⟩
            refine Or.inr (Or.inr (Or.inr ⟨by omega, fun hnp => hvm ?_⟩))
            exact (isValidMove_true_iff b row col value
              (by omega) (by omega) (by omega)).mpr hnp

theorem claim_C6_witness :
    (makeMove solvedGrid noFixed 0 0 2).1 = false ∧
    (makeMove solvedGrid noFixed 0 0 2).2 = solvedGrid ∧
    (makeMove solvedGrid noFixed (-1) 0 5).1 = false := by
  have h := claim_C6_makeMove solvedGrid noFixed 0 0 2
  have h1 : (makeMove solvedGrid noFixed 0 0 2).1 = false :=
    (h.2.2 (by omega)).mpr (Or.inr (Or.inr (Or.inr ⟨by omega, by decide⟩)))
  exact ⟨h1, h.1 h1,
    (claim_C6_makeMove solvedGrid noFixed (-1) 0 5).2.1 (by omega)⟩
